import Mathlib

/-!
Shallow embedding of the ws2300 weather-station driver (`src/lib.rs`).

The protocol engine's pure functions (`encode_address`, `check`, `check_data`)
are translated directly; machine-integer arithmetic (`u8`, `u32`) is modelled
as `Nat` with explicit `% 2^w` wherever the Rust release-mode wrap-around can
matter.  Stateful code (`try_read`, `reset`) is modelled by explicit state
passing: the serial channel's successive single-byte reads are a function
`reads : Nat → Option Nat` (`none` models a failed `read_exact`), writes and
sleeps are recorded in an event trace, and the bounded loops become
fuel-indexed recursions whose fuel is the source's literal bound.
-/

namespace Ws2300

/-- Error values of the driver, one per distinct `serialport::Error::new`
message in the source (plus `ioError` standing for a channel-level failure). -/
inductive WsError where
  | checkError
  | checkDataError
  | resetFailed
  | tryReadError
  | ioError
deriving DecidableEq, Repr

/-- `struct Memory { address: u32, size: usize }` — a memory region. -/
structure Memory where
  address : Nat
  size : Nat
deriving DecidableEq, Repr

/-- `struct MemoryMap` — the 13 statically defined regions. -/
structure MemoryMap where
  temperature_indoor : Memory
  temperature_outdoor : Memory
  dewpoint : Memory
  humidity_indoor : Memory
  humidity_outdoor : Memory
  wind_speed : Memory
  wind_dir : Memory
  wind_chill : Memory
  rain_1h : Memory
  rain_24h : Memory
  rain_total : Memory
  pressure : Memory
  tendency : Memory
deriving DecidableEq, Repr

/-- The concrete memory map built in `Device::new`. -/
def memoryMap : MemoryMap where
  temperature_indoor := ⟨0x346, 2⟩
  temperature_outdoor := ⟨0x373, 2⟩
  dewpoint := ⟨0x3CE, 2⟩
  humidity_indoor := ⟨0x3FB, 1⟩
  humidity_outdoor := ⟨0x419, 1⟩
  wind_speed := ⟨0x529, 3⟩
  wind_dir := ⟨0x52C, 1⟩
  wind_chill := ⟨0x3A0, 2⟩
  rain_1h := ⟨0x4B4, 3⟩
  rain_24h := ⟨0x497, 3⟩
  rain_total := ⟨0x4D2, 3⟩
  pressure := ⟨0x5E2, 3⟩
  tendency := ⟨0x26B, 1⟩

/-- `Device::encode_address`: the command byte sequence for a region.
Address `0x06` is the single byte `0x06`; otherwise four bytes
`0x82 + nibble*4` (nibbles most-significant first, via shift and mask as in
the source) followed by `min(0xC2 + size*4, 0xFE)`. -/
def encode_address (memory : Memory) : List Nat :=
  if memory.address = 0x06 then
    [0x06]
  else
    ((List.range 4).map fun i =>
      0x82 + ((memory.address >>> (4 * (3 - i))) &&& 0x0F) * 4)
      ++ [min (0xC2 + memory.size * 4) 0xFE]

/-- `Device::check`: echo verification of one command byte.  `u8` arithmetic
(`sequence as u8`, the subtraction and the final sum) wraps modulo 256 as in
a Rust release build. -/
def check (command : Nat) (sequence : Nat) (answer : Nat) : Except WsError Unit :=
  let checksum :=
    if sequence < 4 then
      (sequence % 256 * 16 % 256 + (command + 256 - 0x82) % 256 / 4) % 256
    else
      (0x30 + (command + 256 - 0xC2) % 256 / 4) % 256
  if checksum = answer then Except.ok () else Except.error WsError.checkError

/-- `Device::check_data`: the trailing checksum byte must equal the `u32` sum
of the data bytes masked with `0xFF`. -/
def check_data (answer : Nat) (response : List Nat) : Except WsError Unit :=
  let checksum := (response.foldl (fun acc r => (acc + r) % 4294967296) 0) &&& 0xFF
  if checksum = answer then Except.ok () else Except.error WsError.checkDataError

/-- The 16-point compass rose of `Device::wind_direction`. -/
def directionsTable : List String :=
  ["N", "NNE", "NE", "ENE", "E", "ESE", "SE", "SSE", "S", "SSW", "SW", "WSW",
   "W", "WNW", "NW", "NNW"]

/-- The 3-entry trend table of `Device::tendency`. -/
def tendenciesTable : List String := ["Steady", "Rising", "Falling"]

/-- The 3-entry forecast table of `Device::forecast`. -/
def forecastsTable : List String := ["Rainy", "Cloudy", "Sunny"]

/-- Decode of `Device::wind_direction`: index the compass table with the high
nibble of the first raw byte.  The Rust indexing `directions[index]` panics
out of bounds; `List.get?` returns `none` there. -/
def wind_direction (value : List Nat) : Option String :=
  match value with
  | [] => none
  | v :: _ => directionsTable.get? (v >>> 4)

/-- Decode of `Device::tendency`: index the 3-entry trend table with the high
nibble of the raw byte; out of bounds is `none` (a panic in the source). -/
def tendency (value : List Nat) : Option String :=
  match value with
  | [] => none
  | v :: _ => tendenciesTable.get? (v >>> 4)

/-- Decode of `Device::forecast`: index the 3-entry forecast table with the
low nibble of the raw byte; out of bounds is `none` (a panic in the source). -/
def forecast (value : List Nat) : Option String :=
  match value with
  | [] => none
  | v :: _ => forecastsTable.get? (v &&& 0x0F)

/-- The field names of `struct Data`, in declaration order.  `Device::read_all`
fills exactly these fields of the snapshot. -/
def dataFields : List String :=
  ["temperature_indoor", "temperature_outdoor", "dewpoint", "humidity_indoor",
   "humidity_outdoor", "wind_speed", "wind_dir", "wind_direction", "wind_chill",
   "rain_1h", "rain_24h", "rain_total", "pressure", "tendency", "forecast"]

/-- The sequence of regions `Device::read_all` passes to `try_read`, one per
snapshot field in field order: `wind_direction` reads the `wind_dir` region
again, and `forecast` reads the `tendency` region again. -/
def readAllRegions (m : MemoryMap) : List Memory :=
  [m.temperature_indoor, m.temperature_outdoor, m.dewpoint, m.humidity_indoor,
   m.humidity_outdoor, m.wind_speed, m.wind_dir, m.wind_dir, m.wind_chill,
   m.rain_1h, m.rain_24h, m.rain_total, m.pressure, m.tendency, m.tendency]

/-- The retry loop of `Device::try_read`, with the remaining attempt budget as
fuel: attempt `i` is the outcome of the `i`-th call to `Device::read`. -/
def tryReadGo (attempt : Nat → Except WsError (List Nat)) :
    Nat → Nat → Except WsError (List Nat)
  | 0, _ => Except.error WsError.tryReadError
  | fuel + 1, i =>
    match attempt i with
    | Except.ok v => Except.ok v
    | Except.error _ => tryReadGo attempt fuel (i + 1)

/-- `Device::try_read`: up to 50 attempts of `Device::read`, first success
wins, otherwise the generic try-read error. -/
def try_read (attempt : Nat → Except WsError (List Nat)) : Except WsError (List Nat) :=
  tryReadGo attempt 50 0

/-- Observable channel events of the reset loop: a written byte, or a backoff
sleep in milliseconds. -/
inductive Ev where
  | write (b : Nat)
  | sleepMs (d : Nat)
deriving DecidableEq, Repr

/-- One probing round of `Device::reset` (the inner `for _ in 0..10` loop):
`idx` indexes the channel's successive `read_exact` outcomes; returns whether
`0x02` was seen and the next read index.  `0x01` continues within the round,
any other byte or a read failure abandons the round. -/
def resetRound (reads : Nat → Option Nat) : Nat → Nat → Bool × Nat
  | idx, 0 => (false, idx)
  | idx, fuel + 1 =>
    match reads idx with
    | none => (false, idx + 1)
    | some b =>
      if b = 0x01 then resetRound reads (idx + 1) fuel
      else if b = 0x02 then (true, idx + 1)
      else (false, idx + 1)

/-- The outer `for x in 0..100` loop of `Device::reset`: `x` is the absolute
round index (for the backoff duration), the fuel is the remaining round
budget.  Each round writes the reset byte `0x06`, runs one probing round of
up to 10 reads, and on failure sleeps `100 * (x + 1)` milliseconds. -/
def resetGo (reads : Nat → Option Nat) : Nat → Nat → Nat → Except WsError Unit × List Ev
  | _, 0, _ => (Except.error WsError.resetFailed, [])
  | x, fuel + 1, idx =>
    let r := resetRound reads idx 10
    if r.1 then (Except.ok (), [Ev.write 0x06])
    else
      let rest := resetGo reads (x + 1) fuel r.2
      (rest.1, Ev.write 0x06 :: Ev.sleepMs (100 * (x + 1)) :: rest.2)

/-- `Device::reset`: the full handshake, 100 rounds starting at read index 0,
returning the result and the trace of writes and sleeps. -/
def reset (reads : Nat → Option Nat) : Except WsError Unit × List Ev :=
  resetGo reads 0 100 0

/-- Read index at which round `j` starts when round 0 starts at `idx`. -/
def roundStartFrom (reads : Nat → Option Nat) (idx : Nat) : Nat → Nat
  | 0 => idx
  | j + 1 => (resetRound reads (roundStartFrom reads idx j) 10).2

/-- The bytes written in a trace, in order. -/
def writeBytes (tr : List Ev) : List Nat :=
  tr.filterMap fun e =>
    match e with
    | Ev.write b => some b
    | _ => none

/-- The sleep durations in a trace, in order. -/
def sleepList (tr : List Ev) : List Nat :=
  tr.filterMap fun e =>
    match e with
    | Ev.sleepMs d => some d
    | _ => none

/-- A success/error `ite` equals `ok` exactly when its condition holds. -/
theorem ite_ok_iff {c : Prop} [Decidable c] {e : WsError} :
    ((if c then Except.ok () else Except.error e) = Except.ok ()) ↔ c := by
  split
  · simp [*]
  · simp [*]

/-- Masking with `0xFF` is reduction modulo 256. -/
theorem and_255_eq_mod (x : Nat) : x &&& 255 = x % 256 := by
  have h := Nat.and_pow_two_sub_one_eq_mod x 8
  norm_num at h
  exact h

/-- Masking with `0x0F` is reduction modulo 16. -/
theorem and_15_eq_mod (x : Nat) : x &&& 15 = x % 16 := by
  have h := Nat.and_pow_two_sub_one_eq_mod x 4
  norm_num at h
  exact h

/-- C1: command encoding is a pure function of the region: address `0x06`
encodes to the single byte `0x06`; any other 16-bit address with width
1..3 encodes to exactly five bytes, byte `i` being `0x82 + 4 * n_i` with
`n_i` the `i`-th 4-bit nibble of the address most-significant first, and
byte 4 being `min (0xC2 + width*4) 0xFE`; address `0x346` with width 2
encodes to `[0x82, 0x8E, 0x92, 0x9A, 0xCA]`. -/
theorem encode_address_spec (a w : Nat) (ha : a < 65536) (hw1 : 1 ≤ w) (hw3 : w ≤ 3) :
    encode_address ⟨0x06, w⟩ = [0x06] ∧
    (a ≠ 0x06 →
      encode_address ⟨a, w⟩ =
        [0x82 + 4 * (a / 4096 % 16), 0x82 + 4 * (a / 256 % 16),
         0x82 + 4 * (a / 16 % 16), 0x82 + 4 * (a % 16),
         min (0xC2 + w * 4) 0xFE]) ∧
    encode_address ⟨0x346, 2⟩ = [0x82, 0x8E, 0x92, 0x9A, 0xCA] := by
  refine ⟨by simp [encode_address], ?_, by rfl⟩
  intro h
  have h12 : a >>> 12 = a / 4096 := by
    have := Nat.shiftRight_eq_div_pow a 12
    norm_num at this
    exact this
  have h8 : a >>> 8 = a / 256 := by
    have := Nat.shiftRight_eq_div_pow a 8
    norm_num at this
    exact this
  have h4 : a >>> 4 = a / 16 := by
    have := Nat.shiftRight_eq_div_pow a 4
    norm_num at this
    exact this
  have h0 : a >>> 0 = a := rfl
  simp only [encode_address, if_neg h, List.range_succ, List.range_zero,
    List.map_append, List.map_cons, List.map_nil, List.nil_append,
    List.cons_append, List.append_nil]
  norm_num [h12, h8, h4, h0, and_15_eq_mod]
  omega

/-- C1 witness: the encoding evaluated at the temperature-indoor region and
at the special address. -/
theorem encode_address_spec_witness :
    encode_address ⟨0x346, 2⟩ = [0x82, 0x8E, 0x92, 0x9A, 0xCA] ∧
    encode_address ⟨0x06, 2⟩ = [0x06] := by
  have h := encode_address_spec 0x346 2 (by decide) (by decide) (by decide)
  exact ⟨h.2.2, h.1⟩

/-- C2: echo verification succeeds exactly when the echo byte equals the
position-dependent formula: `seq*16 + (cmd - 0x82)/4` for `seq < 4` and
`0x30 + (cmd - 0xC2)/4` for `seq ≥ 4`; any other echo yields an error. -/
theorem check_spec (command sequence answer : Nat)
    (hc : command < 256) (ha : answer < 256) :
    (sequence < 4 → 0x82 ≤ command →
      (check command sequence answer = Except.ok () ↔
        answer = sequence * 16 + (command - 0x82) / 4)) ∧
    (4 ≤ sequence → 0xC2 ≤ command →
      (check command sequence answer = Except.ok () ↔
        answer = 0x30 + (command - 0xC2) / 4)) := by
  constructor
  · intro hs hcmd
    have hrw : check command sequence answer =
        (if sequence * 16 + (command - 0x82) / 4 = answer then Except.ok ()
         else Except.error WsError.checkError) := by
      simp only [check, if_pos hs]
      have : (sequence % 256 * 16 % 256 + (command + 256 - 0x82) % 256 / 4) % 256 =
          sequence * 16 + (command - 0x82) / 4 := by omega
      rw [this]
    rw [hrw, ite_ok_iff]
    exact eq_comm
  · intro hs hcmd
    have hrw : check command sequence answer =
        (if 0x30 + (command - 0xC2) / 4 = answer then Except.ok ()
         else Except.error WsError.checkError) := by
      simp only [check, if_neg (by omega : ¬ sequence < 4)]
      have : (0x30 + (command + 256 - 0xC2) % 256 / 4) % 256 =
          0x30 + (command - 0xC2) / 4 := by omega
      rw [this]
    rw [hrw, ite_ok_iff]
    exact eq_comm

/-- C2 witness: the echo check evaluated on a nibble byte at position 1 and
on the length byte at position 4 of the `0x346/2` command. -/
theorem check_spec_witness :
    check 0x8E 1 0x13 = Except.ok () ∧ check 0xCA 4 0x32 = Except.ok () := by
  constructor
  · exact ((check_spec 0x8E 1 0x13 (by decide) (by decide)).1 (by decide)
      (by decide)).mpr (by decide)
  · exact ((check_spec 0xCA 4 0x32 (by decide) (by decide)).2 (by decide)
      (by decide)).mpr (by decide)

/-- C3: for every data byte sequence of length 1 to 3 and every checksum
byte, `check_data` succeeds exactly when the sum of the data bytes modulo
256 equals the checksum byte. -/
theorem check_data_spec (response : List Nat) (answer : Nat)
    (hb : ∀ b ∈ response, b < 256) (h1 : 1 ≤ response.length)
    (h3 : response.length ≤ 3) (ha : answer < 256) :
    (check_data answer response = Except.ok () ↔ response.sum % 256 = answer) := by
  match response with
  | [] => simp at h1
  | [a] =>
    have hba : a < 256 := hb a (by simp)
    simp only [check_data, List.foldl, and_255_eq_mod]
    rw [ite_ok_iff]
    simp only [List.sum_cons, List.sum_nil]
    omega
  | [a, b] =>
    have hba : a < 256 := hb a (by simp)
    have hbb : b < 256 := hb b (by simp)
    simp only [check_data, List.foldl, and_255_eq_mod]
    rw [ite_ok_iff]
    simp only [List.sum_cons, List.sum_nil]
    omega
  | [a, b, c] =>
    have hba : a < 256 := hb a (by simp)
    have hbb : b < 256 := hb b (by simp)
    have hbc : c < 256 := hb c (by simp)
    simp only [check_data, List.foldl, and_255_eq_mod]
    rw [ite_ok_iff]
    simp only [List.sum_cons, List.sum_nil]
    omega
  | a :: b :: c :: d :: t => simp at h3

/-- C3 witness: the checksum check evaluated on a 3-byte reading whose sum
overflows one byte. -/
theorem check_data_spec_witness :
    check_data 0x2F [0x10, 0x20, 0xFF] = Except.ok () := by
  exact (check_data_spec [0x10, 0x20, 0xFF] 0x2F (by decide) (by decide)
    (by decide) (by decide)).mpr (by decide)

/-- If the first `m` attempts fail and attempt `m` succeeds within the fuel,
the retry loop returns attempt `m`'s value. -/
theorem tryReadGo_ok (attempt : Nat → Except WsError (List Nat)) :
    ∀ m fuel i v, m < fuel →
    (∀ j, j < m → ∃ e, attempt (i + j) = Except.error e) →
    attempt (i + m) = Except.ok v →
    tryReadGo attempt fuel i = Except.ok v := by
  intro m
  induction m with
  | zero =>
    intro fuel i v hm hfail hok
    match fuel, hm with
    | f + 1, _ =>
      rw [Nat.add_zero] at hok
      simp [tryReadGo, hok]
  | succ m ih =>
    intro fuel i v hm hfail hok
    match fuel, hm with
    | f + 1, _ =>
      obtain ⟨e, he⟩ := hfail 0 (Nat.succ_pos m)
      rw [Nat.add_zero] at he
      have step : tryReadGo attempt (f + 1) i = tryReadGo attempt f (i + 1) := by
        simp [tryReadGo, he]
      rw [step]
      refine ih f (i + 1) v (by omega) ?_ ?_
      · intro j hj
        obtain ⟨e2, he2⟩ := hfail (j + 1) (by omega)
        exact ⟨e2, by rw [show i + 1 + j = i + (j + 1) by omega]; exact he2⟩
      · rw [show i + 1 + m = i + (m + 1) by omega]
        exact hok

/-- If every attempt within the fuel fails, the retry loop returns the
generic try-read error. -/
theorem tryReadGo_fail (attempt : Nat → Except WsError (List Nat)) :
    ∀ fuel i,
    (∀ j, j < fuel → ∃ e, attempt (i + j) = Except.error e) →
    tryReadGo attempt fuel i = Except.error WsError.tryReadError := by
  intro fuel
  induction fuel with
  | zero => intro i _; rfl
  | succ f ih =>
    intro i hfail
    obtain ⟨e, he⟩ := hfail 0 (Nat.succ_pos f)
    rw [Nat.add_zero] at he
    have step : tryReadGo attempt (f + 1) i = tryReadGo attempt f (i + 1) := by
      simp [tryReadGo, he]
    rw [step]
    refine ih (i + 1) ?_
    intro j hj
    obtain ⟨e2, he2⟩ := hfail (j + 1) (by omega)
    exact ⟨e2, by rw [show i + 1 + j = i + (j + 1) by omega]; exact he2⟩

/-- C4: the public read performs at most 50 attempts, returns the first
successful attempt's data without looking at later attempts, swallows the
individual attempts' errors, and returns the generic try-read error exactly
when all 50 attempts fail. -/
theorem try_read_spec (attempt : Nat → Except WsError (List Nat)) :
    (∀ k v, k < 50 → (∀ j, j < k → ∃ e, attempt j = Except.error e) →
      attempt k = Except.ok v →
      try_read attempt = Except.ok v ∧
      ∀ attempt2 : Nat → Except WsError (List Nat),
        (∀ j, j ≤ k → attempt2 j = attempt j) →
        try_read attempt2 = Except.ok v) ∧
    ((∀ j, j < 50 → ∃ e, attempt j = Except.error e) →
      try_read attempt = Except.error WsError.tryReadError) := by
  constructor
  · intro k v hk hfail hok
    constructor
    · refine tryReadGo_ok attempt k 50 0 v hk ?_ ?_
      · intro j hj
        rw [Nat.zero_add]
        exact hfail j hj
      · rw [Nat.zero_add]
        exact hok
    · intro attempt2 hagree
      refine tryReadGo_ok attempt2 k 50 0 v hk ?_ ?_
      · intro j hj
        rw [Nat.zero_add, hagree j (Nat.le_of_lt hj)]
        exact hfail j hj
      · rw [Nat.zero_add, hagree k (Nat.le_refl k)]
        exact hok
  · intro hall
    refine tryReadGo_fail attempt 50 0 ?_
    intro j hj
    rw [Nat.zero_add]
    exact hall j hj

/-- C4 witness: an attempt sequence succeeding immediately. -/
theorem try_read_spec_witness :
    try_read (fun i => if i = 0 then Except.ok [1, 2]
      else Except.error WsError.ioError) = Except.ok [1, 2] := by
  exact ((try_read_spec _).1 0 [1, 2] (by decide)
    (fun j hj => absurd hj (Nat.not_lt_zero j)) rfl).1

/-- C9: the tendency and forecast decoders index 3-element tables with the
raw byte's high resp. low nibble and are undefined (out of bounds) exactly
when that nibble is 3 or more, while the data checksum accepts every byte. -/
theorem tendency_forecast_oob (b : Nat) (hb : b < 256) :
    tendenciesTable.length = 3 ∧ forecastsTable.length = 3 ∧
    (tendency [b] = none ↔ 3 ≤ b >>> 4) ∧
    (forecast [b] = none ↔ 3 ≤ b &&& 0x0F) ∧
    check_data b [b] = Except.ok () := by
  refine ⟨rfl, rfl, ?_, ?_, ?_⟩
  · show tendenciesTable.get? (b >>> 4) = none ↔ 3 ≤ b >>> 4
    rw [List.get?_eq_none]
    exact Iff.rfl
  · show forecastsTable.get? (b &&& 0x0F) = none ↔ 3 ≤ b &&& 0x0F
    rw [List.get?_eq_none]
    exact Iff.rfl
  · have hsum : ((0 + b) % 4294967296) &&& 255 = b := by
      rw [and_255_eq_mod]
      omega
    simp only [check_data, List.foldl]
    rw [if_pos hsum]

/-- C9 witness: the byte `0x34` passes the checksum but makes both decoders
go out of bounds. -/
theorem tendency_forecast_oob_witness :
    tendency [0x34] = none ∧ forecast [0x34] = none ∧
    check_data 0x34 [0x34] = Except.ok () := by
  have h := tendency_forecast_oob 0x34 (by decide)
  exact ⟨h.2.2.1.mpr (by decide), h.2.2.2.1.mpr (by decide), h.2.2.2.2⟩

/-- C10: the wind-direction decode is total: the index is the byte's high
nibble, below the compass table's 16 entries, so every byte decodes to one
of the 16 compass labels. -/
theorem wind_direction_total (b : Nat) (hb : b < 256) :
    directionsTable.length = 16 ∧ b >>> 4 < 16 ∧
    ∃ s, wind_direction [b] = some s ∧ s ∈ directionsTable := by
  have hshift : b >>> 4 = b / 16 := by
    have := Nat.shiftRight_eq_div_pow b 4
    norm_num at this
    exact this
  have hidx : b >>> 4 < 16 := by omega
  refine ⟨rfl, hidx, ?_⟩
  have hlen : b >>> 4 < directionsTable.length := hidx
  refine ⟨directionsTable.get ⟨b >>> 4, hlen⟩, ?_, List.get_mem _ _ _⟩
  show directionsTable.get? (b >>> 4) = _
  rw [List.get?_eq_get hlen]

/-- C10 witness: the byte `0x42` decodes to a compass label. -/
theorem wind_direction_total_witness :
    ∃ s, wind_direction [0x42] = some s ∧ s ∈ directionsTable :=
  (wind_direction_total 0x42 (by decide)).2.2

/-- C6 counterexample: `read_all` issues 15 protocol reads, not 14, and the
wind-speed and wind-direction regions are distinct, so wind speed and wind
direction do not share an underlying read of the same region. -/
theorem read_all_regions_cex :
    (readAllRegions memoryMap).length ≠ 14 ∧
    memoryMap.wind_speed.address ≠ memoryMap.wind_dir.address := by
  decide

/-- C6 amended: `read_all` issues 15 protocol reads, one per snapshot field;
the wind-bearing and wind-direction-label fields are separate reads of the
same region `0x52C`, tendency and forecast are separate reads of the same
region `0x26B`, and wind speed reads its own region `0x529`. -/
theorem read_all_regions_amended :
    (readAllRegions memoryMap).length = 15 ∧
    (readAllRegions memoryMap).getD 6 ⟨0, 0⟩ = (readAllRegions memoryMap).getD 7 ⟨0, 0⟩ ∧
    (readAllRegions memoryMap).getD 13 ⟨0, 0⟩ = (readAllRegions memoryMap).getD 14 ⟨0, 0⟩ ∧
    ((readAllRegions memoryMap).getD 6 ⟨0, 0⟩).address = 0x52C ∧
    ((readAllRegions memoryMap).getD 13 ⟨0, 0⟩).address = 0x26B ∧
    memoryMap.wind_speed.address = 0x529 ∧
    memoryMap.wind_speed ≠ memoryMap.wind_dir := by
  decide

/-- C8 counterexample: the snapshot record has 15 fields, not 14. -/
theorem data_fields_cex : dataFields.length ≠ 14 := by decide

/-- C8 amended: the snapshot record has exactly 15 fields, 14 readings plus
the derived forecast string as the last field. -/
theorem data_fields_amended :
    dataFields.length = 15 ∧ dataFields.getLast? = some "forecast" := by
  exact ⟨rfl, rfl⟩

/-- A failed read abandons the probing round. -/
theorem resetRound_none {reads : Nat → Option Nat} {idx f : Nat}
    (h : reads idx = none) :
    resetRound reads idx (f + 1) = (false, idx + 1) := by
  simp [resetRound, h]

/-- A `0x01` response continues the probing round. -/
theorem resetRound_busy {reads : Nat → Option Nat} {idx f : Nat}
    (h : reads idx = some 1) :
    resetRound reads idx (f + 1) = resetRound reads (idx + 1) f := by
  simp [resetRound, h]

/-- A `0x02` response ends the probing round with success. -/
theorem resetRound_ready {reads : Nat → Option Nat} {idx f : Nat}
    (h : reads idx = some 2) :
    resetRound reads idx (f + 1) = (true, idx + 1) := by
  simp [resetRound, h]

/-- Any other response abandons the probing round. -/
theorem resetRound_other {reads : Nat → Option Nat} {idx f b : Nat}
    (h : reads idx = some b) (h1 : b ≠ 1) (h2 : b ≠ 2) :
    resetRound reads idx (f + 1) = (false, idx + 1) := by
  simp [resetRound, h, h1, h2]

/-- A probing round with fuel `f` consumes at most `f` reads. -/
theorem resetRound_le (reads : Nat → Option Nat) :
    ∀ fuel idx, (resetRound reads idx fuel).2 ≤ idx + fuel := by
  intro fuel
  induction fuel with
  | zero => intro idx; simp [resetRound]
  | succ f ih =>
    intro idx
    cases h : reads idx with
    | none => rw [resetRound_none h]; omega
    | some b =>
      by_cases hb1 : b = 1
      · subst hb1
        rw [resetRound_busy h]
        have := ih (idx + 1)
        omega
      · by_cases hb2 : b = 2
        · subst hb2; rw [resetRound_ready h]; omega
        · rw [resetRound_other h hb1 hb2]; omega

/-- A probing round reaches ready exactly when, within its fuel, some read
returns `0x02` with only `0x01` responses before it. -/
theorem resetRound_ready_iff (reads : Nat → Option Nat) :
    ∀ fuel idx, ((resetRound reads idx fuel).1 = true ↔
      ∃ m, m < fuel ∧ reads (idx + m) = some 2 ∧
        ∀ l, l < m → reads (idx + l) = some 1) := by
  intro fuel
  induction fuel with
  | zero =>
    intro idx
    constructor
    · intro h; simp [resetRound] at h
    · rintro ⟨m, hm, _⟩; omega
  | succ f ih =>
    intro idx
    cases h : reads idx with
    | none =>
      rw [resetRound_none h]
      constructor
      · intro hc; simp at hc
      · rintro ⟨m, hm, h2, h1⟩
        match m with
        | 0 =>
          rw [Nat.add_zero, h] at h2
          simp at h2
        | m + 1 =>
          have h0 := h1 0 (by omega)
          rw [Nat.add_zero, h] at h0
          simp at h0
    | some b =>
      by_cases hb1 : b = 1
      · subst hb1
        rw [resetRound_busy h, ih (idx + 1)]
        constructor
        · rintro ⟨m, hm, h2, hl⟩
          refine ⟨m + 1, by omega, ?_, ?_⟩
          · rw [show idx + (m + 1) = idx + 1 + m by omega]; exact h2
          · intro l hl2
            match l with
            | 0 => rw [Nat.add_zero]; exact h
            | l + 1 =>
              rw [show idx + (l + 1) = idx + 1 + l by omega]
              exact hl l (by omega)
        · rintro ⟨m, hm, h2, hl⟩
          match m with
          | 0 =>
            rw [Nat.add_zero, h] at h2
            simp at h2
          | m + 1 =>
            refine ⟨m, by omega, ?_, ?_⟩
            · rw [show idx + 1 + m = idx + (m + 1) by omega]; exact h2
            · intro l hl2
              rw [show idx + 1 + l = idx + (l + 1) by omega]
              exact hl (l + 1) (by omega)
      · by_cases hb2 : b = 2
        · subst hb2
          rw [resetRound_ready h]
          constructor
          · intro _
            exact ⟨0, by omega, by rw [Nat.add_zero]; exact h,
              fun l hl => absurd hl (by omega)⟩
          · intro _; rfl
        · rw [resetRound_other h hb1 hb2]
          constructor
          · intro hc; simp at hc
          · rintro ⟨m, hm, h2, hl⟩
            match m with
            | 0 =>
              rw [Nat.add_zero, h] at h2
              simp at h2
              exact (hb2 h2).elim
            | m + 1 =>
              have h0 := hl 0 (by omega)
              rw [Nat.add_zero, h] at h0
              simp at h0
              exact (hb1 h0).elim

/-- Starting one round later shifts the round-start index chain. -/
theorem roundStartFrom_shift (reads : Nat → Option Nat) :
    ∀ j idx, roundStartFrom reads idx (j + 1) =
      roundStartFrom reads (resetRound reads idx 10).2 j := by
  intro j
  induction j with
  | zero => intro idx; rfl
  | succ j ih =>
    intro idx
    show (resetRound reads (roundStartFrom reads idx (j + 1)) 10).2 = _
    rw [ih idx]
    rfl

/-- On a ready round the outer loop returns success at once. -/
theorem resetGo_ready_fst {reads : Nat → Option Nat} {x fuel idx : Nat}
    (h : (resetRound reads idx 10).1 = true) :
    (resetGo reads x (fuel + 1) idx).1 = Except.ok () := by
  simp [resetGo, h]

/-- On a ready round the trace is the single reset-byte write. -/
theorem resetGo_ready_snd {reads : Nat → Option Nat} {x fuel idx : Nat}
    (h : (resetRound reads idx 10).1 = true) :
    (resetGo reads x (fuel + 1) idx).2 = [Ev.write 0x06] := by
  simp [resetGo, h]

/-- On a failed round the outer loop's result is the next iteration's. -/
theorem resetGo_step_fst {reads : Nat → Option Nat} {x fuel idx : Nat}
    (h : (resetRound reads idx 10).1 = false) :
    (resetGo reads x (fuel + 1) idx).1 =
      (resetGo reads (x + 1) fuel (resetRound reads idx 10).2).1 := by
  simp [resetGo, h]

/-- On a failed round the trace is a write, a backoff sleep, then the rest. -/
theorem resetGo_step_snd {reads : Nat → Option Nat} {x fuel idx : Nat}
    (h : (resetRound reads idx 10).1 = false) :
    (resetGo reads x (fuel + 1) idx).2 =
      Ev.write 0x06 :: Ev.sleepMs (100 * (x + 1)) ::
        (resetGo reads (x + 1) fuel (resetRound reads idx 10).2).2 := by
  simp [resetGo, h]

/-- A write event prepends its byte to the write list. -/
theorem writeBytes_write (b : Nat) (tr : List Ev) :
    writeBytes (Ev.write b :: tr) = b :: writeBytes tr := by
  simp [writeBytes]

/-- A sleep event does not contribute a write. -/
theorem writeBytes_sleep (d : Nat) (tr : List Ev) :
    writeBytes (Ev.sleepMs d :: tr) = writeBytes tr := by
  simp [writeBytes]

/-- A write event does not contribute a sleep. -/
theorem sleepList_write (b : Nat) (tr : List Ev) :
    sleepList (Ev.write b :: tr) = sleepList tr := by
  simp [sleepList]

/-- A sleep event prepends its duration to the sleep list. -/
theorem sleepList_sleep (d : Nat) (tr : List Ev) :
    sleepList (Ev.sleepMs d :: tr) = d :: sleepList tr := by
  simp [sleepList]

/-- If the first `j` rounds fail and round `j` reaches ready within the round
budget, the reset loop succeeds after exactly `j + 1` reset-byte writes with
backoff sleeps `100*(x+1), 100*(x+2), …` after each failed round. -/
theorem resetGo_ok (reads : Nat → Option Nat) :
    ∀ j fuel x idx, j < fuel →
    (∀ i, i < j → (resetRound reads (roundStartFrom reads idx i) 10).1 = false) →
    (resetRound reads (roundStartFrom reads idx j) 10).1 = true →
    (resetGo reads x fuel idx).1 = Except.ok () ∧
    writeBytes (resetGo reads x fuel idx).2 = List.replicate (j + 1) 6 ∧
    sleepList (resetGo reads x fuel idx).2 =
      (List.range j).map (fun k => 100 * (x + 1 + k)) := by
  intro j
  induction j with
  | zero =>
    intro fuel x idx hj hfail hready
    match fuel, hj with
    | f + 1, _ =>
      have hready2 : (resetRound reads idx 10).1 = true := hready
      rw [resetGo_ready_fst hready2, resetGo_ready_snd hready2]
      exact ⟨rfl, rfl, rfl⟩
  | succ j ih =>
    intro fuel x idx hj hfail hready
    match fuel, hj with
    | f + 1, _ =>
      have h0 : (resetRound reads idx 10).1 = false := hfail 0 (by omega)
      have hfail2 : ∀ i, i < j →
          (resetRound reads (roundStartFrom reads (resetRound reads idx 10).2 i) 10).1
            = false := by
        intro i hi
        have hs := hfail (i + 1) (by omega)
        rw [roundStartFrom_shift] at hs
        exact hs
      have hready2 : (resetRound reads
          (roundStartFrom reads (resetRound reads idx 10).2 j) 10).1 = true := by
        have hs := hready
        rw [roundStartFrom_shift] at hs
        exact hs
      obtain ⟨ih1, ih2, ih3⟩ :=
        ih f (x + 1) (resetRound reads idx 10).2 (by omega) hfail2 hready2
      rw [resetGo_step_fst h0, resetGo_step_snd h0]
      refine ⟨ih1, ?_, ?_⟩
      · rw [writeBytes_write, writeBytes_sleep, ih2]
        rfl
      · rw [sleepList_write, sleepList_sleep, ih3,
          List.range_succ_eq_map, List.map_cons, List.map_map]
        congr 1
        apply List.map_congr_left
        intro a ha
        show 100 * (x + 1 + 1 + a) = 100 * (x + 1 + (a + 1))
        omega

/-- If every round within the budget fails, the reset loop errors after one
reset-byte write and one backoff sleep per round. -/
theorem resetGo_err (reads : Nat → Option Nat) :
    ∀ fuel x idx,
    (∀ i, i < fuel → (resetRound reads (roundStartFrom reads idx i) 10).1 = false) →
    (resetGo reads x fuel idx).1 = Except.error WsError.resetFailed ∧
    writeBytes (resetGo reads x fuel idx).2 = List.replicate fuel 6 ∧
    sleepList (resetGo reads x fuel idx).2 =
      (List.range fuel).map (fun k => 100 * (x + 1 + k)) := by
  intro fuel
  induction fuel with
  | zero =>
    intro x idx _
    exact ⟨rfl, rfl, rfl⟩
  | succ f ih =>
    intro x idx hfail
    have h0 : (resetRound reads idx 10).1 = false := hfail 0 (by omega)
    have hfail2 : ∀ i, i < f →
        (resetRound reads (roundStartFrom reads (resetRound reads idx 10).2 i) 10).1
          = false := by
      intro i hi
      have hs := hfail (i + 1) (by omega)
      rw [roundStartFrom_shift] at hs
      exact hs
    obtain ⟨ih1, ih2, ih3⟩ := ih (x + 1) (resetRound reads idx 10).2 hfail2
    rw [resetGo_step_fst h0, resetGo_step_snd h0]
    refine ⟨ih1, ?_, ?_⟩
    · rw [writeBytes_write, writeBytes_sleep, ih2]
      rfl
    · rw [sleepList_write, sleepList_sleep, ih3,
        List.range_succ_eq_map, List.map_cons, List.map_map]
      congr 1
      apply List.map_congr_left
      intro a ha
      show 100 * (x + 1 + 1 + a) = 100 * (x + 1 + (a + 1))
      omega

/-- C5: the handshake runs at most 100 rounds; a round consumes at most 10
reads and reaches ready exactly when a `0x02` arrives within 10 reads with
only `0x01` before it (any other byte or a failed read abandons the round);
if the first `j < 100` rounds fail and round `j` is ready, the procedure
succeeds having written the reset byte `0x06` exactly `j + 1` times with
backoff sleeps `100·1, …, 100·j` ms after the failed rounds; if all 100
rounds fail it errors after 100 writes and sleeps `100·1, …, 100·100` ms. -/
theorem reset_spec (reads : Nat → Option Nat) :
    (∀ idx, (resetRound reads idx 10).2 ≤ idx + 10) ∧
    (∀ idx, ((resetRound reads idx 10).1 = true ↔
      ∃ m, m < 10 ∧ reads (idx + m) = some 2 ∧
        ∀ l, l < m → reads (idx + l) = some 1)) ∧
    (∀ j, j < 100 →
      (∀ i, i < j → (resetRound reads (roundStartFrom reads 0 i) 10).1 = false) →
      (resetRound reads (roundStartFrom reads 0 j) 10).1 = true →
      (reset reads).1 = Except.ok () ∧
      writeBytes (reset reads).2 = List.replicate (j + 1) 6 ∧
      sleepList (reset reads).2 = (List.range j).map fun k => 100 * (k + 1)) ∧
    ((∀ i, i < 100 → (resetRound reads (roundStartFrom reads 0 i) 10).1 = false) →
      (reset reads).1 = Except.error WsError.resetFailed ∧
      writeBytes (reset reads).2 = List.replicate 100 6 ∧
      sleepList (reset reads).2 = (List.range 100).map fun k => 100 * (k + 1)) := by
  refine ⟨fun idx => resetRound_le reads 10 idx,
    fun idx => resetRound_ready_iff reads 10 idx, ?_, ?_⟩
  · intro j hj hfail hready
    obtain ⟨h1, h2, h3⟩ := resetGo_ok reads j 100 0 0 hj hfail hready
    refine ⟨h1, h2, ?_⟩
    show sleepList (resetGo reads 0 100 0).2 = _
    rw [h3]
    apply List.map_congr_left
    intro a ha
    show 100 * (0 + 1 + a) = 100 * (a + 1)
    omega
  · intro hfail
    obtain ⟨h1, h2, h3⟩ := resetGo_err reads 100 0 0 hfail
    refine ⟨h1, h2, ?_⟩
    show sleepList (resetGo reads 0 100 0).2 = _
    rw [h3]
    apply List.map_congr_left
    intro a ha
    show 100 * (0 + 1 + a) = 100 * (a + 1)
    omega

/-- C5 witness: a device that answers `0x02` at once makes the handshake
succeed in one round with a single reset-byte write and no sleep. -/
theorem reset_spec_witness :
    (reset (fun _ => some 2)).1 = Except.ok () ∧
    writeBytes (reset (fun _ => some 2)).2 = [6] ∧
    sleepList (reset (fun _ => some 2)).2 = [] := by
  have h := (reset_spec (fun _ => some 2)).2.2.1 0 (by decide)
    (fun i hi => absurd hi (Nat.not_lt_zero i)) (by decide)
  exact ⟨h.1, h.2.1, h.2.2⟩

end Ws2300
